import Mathlib

/-!
# Verification of the CSV-import normalization core of farm-work-log

Shallow embedding of the CSV-import normalization logic of `src/app.py`
(`page_csv_import`, `_convert_date`, `_get_val`) together with proofs of the
specification's claims about it.

Modelling conventions:
* Python strings are Lean `String`s; string primitives (`strip`, `split`,
  `in`, `len`, `isdigit`, `int()`, `%0Nd` formatting) are modelled over
  `List Char` below.  Only ASCII decimal digits are modelled (the data this
  importer handles is ASCII dates); Python's acceptance of non-ASCII Unicode
  digits in `int()`/`str.isdigit` is outside the model.
* A tabular row is a list of (column label, cell text) pairs, where the cell
  text is the `str()` rendering of the cell (a missing value renders as the
  literal `"nan"`, the "not-a-number" sentinel).
* The "unmapped" marker for a column selector is the literal `"（なし）"`
  used by the UI.
-/

namespace FarmLog

/-- Python `str.strip` on a character list: drop whitespace from both ends. -/
def pyStripList (cs : List Char) : List Char :=
  ((cs.dropWhile Char.isWhitespace).reverse.dropWhile Char.isWhitespace).reverse

/-- Python `str.strip` (`.strip()` in `page_csv_import` / `_convert_date` /
`_get_val`). -/
def pyStrip (s : String) : String :=
  String.mk (pyStripList s.toList)

/-- Continue parsing a Python integer literal after the first digit:
digits, with single underscores allowed between digits (Python 3.6+). -/
def pyDigitsAux : List Char → Nat → Option Nat
  | [], acc => some acc
  | '_' :: c :: cs, acc =>
      if c.isDigit then pyDigitsAux cs (acc * 10 + (c.toNat - 48)) else none
  | c :: cs, acc =>
      if c.isDigit then pyDigitsAux cs (acc * 10 + (c.toNat - 48)) else none

/-- Parse a nonempty digit group (Python integer literal body). -/
def pyDigits : List Char → Option Nat
  | [] => none
  | c :: cs => if c.isDigit then pyDigitsAux cs (c.toNat - 48) else none

/-- Python `int(s)`: strip surrounding whitespace, optional sign, then a
nonempty digit group; any other shape raises `ValueError`, modelled as
`none`. -/
def pyInt (s : String) : Option Int :=
  match pyStripList s.toList with
  | '+' :: cs => (pyDigits cs).map fun n => (n : Int)
  | '-' :: cs => (pyDigits cs).map fun n => -(n : Int)
  | cs => (pyDigits cs).map fun n => (n : Int)

/-- Left-pad a string with `'0'` up to width `w`. -/
def padZeros (w : Nat) (s : String) : String :=
  if s.length ≥ w then s
  else String.mk (List.replicate (w - s.length) '0') ++ s

/-- Python `f"{n:0wd}"`: zero-padded decimal of total width `w`, the sign
included in the width for negative numbers. -/
def pyFmtInt (w : Nat) (n : Int) : String :=
  if n < 0 then "-" ++ padZeros (w - 1) (toString n.natAbs)
  else padZeros w (toString n.natAbs)

/-- Python `s.split(sep)` for a single-character separator. -/
def splitOnChar (sep : Char) : List Char → List (List Char)
  | [] => [[]]
  | c :: rest =>
      let r := splitOnChar sep rest
      if c = sep then [] :: r
      else
        match r with
        | h :: t => (c :: h) :: t
        | [] => [[c]]

/-- Python `s.split("/")` on a character list. -/
def splitSlash (cs : List Char) : List (List Char) :=
  splitOnChar '/' cs

/-- The `YY/MM/DD` branch of `_convert_date`: if the (stripped) text contains
`'/'` and splits on `'/'` into exactly three `int()`-parseable parts, a year
under 100 gains 2000 and the result is `f"{y:04d}-{m:02d}-{d:02d}"`;
otherwise no match (`ValueError` falls through). -/
def slashCase (rd : String) : Option String :=
  if rd.toList.contains '/' then
    match (splitSlash rd.toList).map (fun p => pyInt (String.mk p)) with
    | [some y, some m, some d] =>
        let y := if y < 100 then y + 2000 else y
        some (pyFmtInt 4 y ++ "-" ++ pyFmtInt 2 m ++ "-" ++ pyFmtInt 2 d)
    | _ => none
  else none

/-- The `YYYYMMDD` branch of `_convert_date`: reformat the 8 digits
positionally as `raw[:4] ++ "-" ++ raw[4:6] ++ "-" ++ raw[6:8]`. -/
def dash8 (rd : String) : String :=
  let cs := rd.toList
  String.mk (cs.take 4) ++ "-" ++ String.mk ((cs.drop 4).take 2) ++ "-" ++
    String.mk ((cs.drop 6).take 2)

/-- `_convert_date(raw_date, prev_date)` from `src/app.py`: convert a date
string to `YYYY-MM-DD`; a blank cell, the `"nan"` sentinel, or an unmatched
shape inherits `prev_date`. -/
def convertDate (raw_date prev_date : String) : String :=
  if raw_date = "" ∨ raw_date = "nan" then prev_date
  else
    match slashCase (pyStrip raw_date) with
    | some s => s
    | none =>
        if (pyStrip raw_date).toList.contains '-' ∧
            (pyStrip raw_date).toList.length = 10 then
          pyStrip raw_date
        else if (pyStrip raw_date).toList.length = 8 ∧
            (pyStrip raw_date).toList.all Char.isDigit then
          dash8 (pyStrip raw_date)
        else prev_date

/-- The pure matching part of `_convert_date`: `some` when one of the three
format branches produces a date, `none` when the caller falls back to the
carried date. -/
def dateParse (raw_date : String) : Option String :=
  if raw_date = "" ∨ raw_date = "nan" then none
  else
    match slashCase (pyStrip raw_date) with
    | some s => some s
    | none =>
        if (pyStrip raw_date).toList.contains '-' ∧
            (pyStrip raw_date).toList.length = 10 then
          some (pyStrip raw_date)
        else if (pyStrip raw_date).toList.length = 8 ∧
            (pyStrip raw_date).toList.all Char.isDigit then
          some (dash8 (pyStrip raw_date))
        else none

/-- The slash-branch of the specification's reference date parser: split on
`'/'`; if exactly three integer parts, treat a year under 100 as
`2000 + year`, zero-pad, emit `YYYY-MM-DD`; malformed integers are no
match. -/
def specSlash (s : String) : Option String :=
  match (splitSlash s.toList).map (fun p => pyInt (String.mk p)) with
  | [some y, some m, some d] =>
      some (pyFmtInt 4 (if y < 100 then 2000 + y else y) ++ "-" ++
            pyFmtInt 2 m ++ "-" ++ pyFmtInt 2 d)
  | _ => none

/-- The specification's reference date parser over a trimmed candidate
string, first match winning: (a) the slash branch when the string contains
`'/'`; (b) otherwise a string of exactly 10 characters containing `'-'`,
accepted verbatim; (c) otherwise exactly 8 characters, all digits,
reformatted positionally; (d) otherwise no match. -/
def specDateParse (s : String) : Option String :=
  match (if s.toList.contains '/' then specSlash s else none) with
  | some r => some r
  | none =>
      if s.toList.contains '-' ∧ s.toList.length = 10 then some s
      else if s.toList.length = 8 ∧ s.toList.all Char.isDigit then
        some (dash8 s)
      else none

/-- A tabular row: ordered (column label, cell text) pairs. -/
abbrev Row : Type := List (String × String)

/-- `str(row.get(col, ""))`: the cell text under a column label, `""` when the
label is absent. -/
def rowGet (row : Row) (col : String) : String :=
  match List.find? (fun p => p.1 = col) row with
  | some p => p.2
  | none => ""

/-- The UI marker for an unmapped column selector. -/
def noCol : String := "（なし）"

/-- The six column selectors chosen in the mapping UI of `page_csv_import`. -/
structure Mapping where
  col_date : String
  col_type : String
  col_field : String
  col_row : String
  col_content : String
  col_note : String

/-- A normalized work-log record as built by `page_csv_import`. -/
structure Record where
  work_date : String
  work_type : String
  field_id : Option String
  row_id : Option String
  content : Option String
  note : Option String
deriving DecidableEq, Repr

/-- `_get_val(row, col_name)` from `src/app.py`: `None` when unmapped, else
the stripped cell with `""` and `"nan"` collapsed to `None`. -/
def getVal (row : Row) (col_name : String) : Option String :=
  if col_name = noCol then none
  else if pyStrip (rowGet row col_name) = "nan" ∨
      pyStrip (rowGet row col_name) = "" then none
  else some (pyStrip (rowGet row col_name))

/-- The raw date cell of a row under a mapping, as `page_csv_import` computes
it: the stripped mapped cell, or `""` when the date field is unmapped. -/
def rawDate (m : Mapping) (row : Row) : String :=
  if m.col_date ≠ noCol then pyStrip (rowGet row m.col_date) else ""

/-- A row's resolved work date given the carried previous date. -/
def resolveDate (m : Mapping) (row : Row) (prev : String) : String :=
  convertDate (rawDate m row) prev

/-- The record `page_csv_import` builds for one row, given the row's resolved
work date. -/
def rowRecord (m : Mapping) (row : Row) (work_date : String) : Record :=
  let wt0 := if m.col_type ≠ noCol then pyStrip (rowGet row m.col_type) else ""
  { work_date := work_date
    work_type := if wt0 = "" ∨ wt0 = "nan" then "その他" else wt0
    field_id := getVal row m.col_field
    row_id := getVal row m.col_row
    content := getVal row m.col_content
    note := getVal row m.col_note }

/-- The row loop of `page_csv_import` from carried date `prev`: resolve the
date, advance the carried date on success, build the record, and skip rows
with empty resolved date and absent content. -/
def normalizeFrom (m : Mapping) (prev : String) : List Row → List Record
  | [] => []
  | row :: rest =>
      let d := resolveDate m row prev
      let prev' := if d ≠ "" then d else prev
      if d = "" ∧ getVal row m.col_content = none then
        normalizeFrom m prev' rest
      else
        rowRecord m row d :: normalizeFrom m prev' rest

/-- `normalize(table, mapping)`: the record normalizer of `page_csv_import`,
carried date initialized to `""`. -/
def normalize (m : Mapping) (rows : List Row) : List Record :=
  normalizeFrom m "" rows

/-- The per-row resolved work dates (before suppression), from carried date
`prev`. -/
def resolvedDatesFrom (m : Mapping) (prev : String) : List Row → List String
  | [] => []
  | row :: rest =>
      let d := resolveDate m row prev
      d :: resolvedDatesFrom m (if d ≠ "" then d else prev) rest

/-- The per-row resolved work dates of a table, carried date initialized to
`""`. -/
def resolvedDates (m : Mapping) (rows : List Row) : List String :=
  resolvedDatesFrom m "" rows

/-- Every row's record with no suppression, threading the carried date as the
loop does. -/
def recordsAll (m : Mapping) (prev : String) : List Row → List Record
  | [] => []
  | row :: rest =>
      let d := resolveDate m row prev
      rowRecord m row d :: recordsAll m (if d ≠ "" then d else prev) rest

/-- Canonical date form per the spec glossary: `YYYY-MM-DD`, zero-padded,
ASCII digits and hyphens only. -/
def isCanonicalDate (s : String) : Bool :=
  match s.toList with
  | [y1, y2, y3, y4, h1, m1, m2, h2, d1, d2] =>
      y1.isDigit && y2.isDigit && y3.isDigit && y4.isDigit && (h1 == '-') &&
        m1.isDigit && m2.isDigit && (h2 == '-') && d1.isDigit && d2.isDigit
  | _ => false

/-- The shape every successfully parsed work date has: at least ten
characters, one of them a hyphen. -/
def DateShaped (s : String) : Prop :=
  s = "" ∨ (10 ≤ s.length ∧ '-' ∈ s.toList)

/-- A cell that is already clean: trimmed, non-empty, and not the `"nan"`
sentinel. -/
abbrev Filled (s : String) : Prop :=
  pyStrip s = s ∧ s ≠ "" ∧ s ≠ "nan"

/-! ## Encoding resolution (`page_csv_import`, upload handling) -/

/-- The candidate encodings of the loop in `page_csv_import`, in source
order. -/
inductive Enc
  | cp932
  | shift_jis
  | utf8
  | utf8_sig
  | latin1
deriving DecidableEq, Repr

/-- `["cp932", "shift_jis", "utf-8", "utf-8-sig", "latin1"]`. -/
def encCandidates : List Enc :=
  [.cp932, .shift_jis, .utf8, .utf8_sig, .latin1]

/-- A parsed table: rows of cells (the header row included). -/
abbrev RawTable : Type := List (List String)

/-- The encoding loop of `page_csv_import`: try `pd.read_csv` with each
candidate in order; any failure (the `except` clause catches decode and
parse errors alike) moves on to the next candidate; the first success is
kept. -/
def tryEncodings (p : Enc → List Nat → Option RawTable) (raw : List Nat) :
    List Enc → Option RawTable
  | [] => none
  | e :: rest =>
      match p e raw with
      | some t => some t
      | none => tryEncodings p raw rest

/-- The encoding resolver of `page_csv_import` over a tabular-parse
function: `df` is `None` exactly when every candidate fails. -/
def resolveTable (p : Enc → List Nat → Option RawTable) (raw : List Nat) :
    Option RawTable :=
  tryEncodings p raw encCandidates

/-- Modelled from the spec: byte-level decodability under the candidate
encodings, which live in the Python runtime, not in this repository.  The
spec states that "latin1 never fails to decode arbitrary bytes"; the other
four candidates are modelled on the ASCII subset they all share.  The
theorems below depend only on latin1's totality. -/
def decodableUnder : Enc → List Nat → Bool
  | .latin1, _ => true
  | _, raw => raw.all (· < 128)

/-- Modelled from the spec: `pd.read_csv`, the "underlying tabular parser"
external to this repository.  It decodes the byte buffer under the given
encoding and splits the decoded text into comma-separated rows; an input
with no content fails (pandas raises `EmptyDataError` on an empty buffer),
a failure the `except` clause of `page_csv_import` treats like a decode
failure. -/
def pdReadCsv (e : Enc) (raw : List Nat) : Option RawTable :=
  if decodableUnder e raw then
    if raw.isEmpty then none
    else
      some ((splitOnChar '\n' (raw.map fun b => Char.ofNat b)).map fun line =>
        (splitOnChar ',' line).map String.mk)
  else none

/-! ## Concrete fixtures used by witnesses and counterexamples -/

/-- Mapping with only the date column mapped. -/
def exDateM : Mapping :=
  { col_date := "date", col_type := noCol, col_field := noCol,
    col_row := noCol, col_content := noCol, col_note := noCol }

/-- The spec's carry-forward example table. -/
def exDateRows : List Row :=
  [[("date", "2024-01-05")], [("date", "")], [("date", "")],
   [("date", "2024/02/10")], [("date", "")]]

/-- Mapping with the date and content columns mapped. -/
def exContentM : Mapping :=
  { col_date := "date", col_type := noCol, col_field := noCol,
    col_row := noCol, col_content := "c", col_note := noCol }

/-- Unparseable date, blank content. -/
def exRowBlank : Row := [("date", "xx"), ("c", "")]

/-- Unparseable date, non-empty content. -/
def exRowContent : Row := [("date", "xx"), ("c", "hello")]

/-- A 10-character date cell containing a hyphen but not a date. -/
def exRow4 : Row := [("date", "abcd-efghi")]

/-- The record emitted for a lone canonical date cell. -/
def exRecCanon : Record :=
  { work_date := "2024-01-05", work_type := "その他", field_id := none,
    row_id := none, content := none, note := none }

/-- Mapping with only the work-type column mapped. -/
def exTypeM : Mapping :=
  { col_date := noCol, col_type := "t", col_field := noCol,
    col_row := noCol, col_content := noCol, col_note := noCol }

/-- A work-type cell with surrounding whitespace. -/
def exRowType : Row := [("t", " 耕起 ")]

/-- A blank work-type cell. -/
def exRowTypeBlank : Row := [("t", "")]

/-- Mapping with all six columns mapped (identity-like). -/
def exFullM : Mapping :=
  { col_date := "date", col_type := "type", col_field := "field",
    col_row := "row", col_content := "content", col_note := "note" }

/-- An already-canonical, fully filled row. -/
def exCanonRow : Row :=
  [("date", "2024-01-05"), ("type", "播種"), ("field", "F1"),
   ("row", "R2"), ("content", "育苗"), ("note", "メモ")]

/-- The record an identity-like pass-through of `exCanonRow` produces. -/
def exCanonRec : Record :=
  { work_date := "2024-01-05", work_type := "播種", field_id := some "F1",
    row_id := some "R2", content := some "育苗", note := some "メモ" }

/-! ## Basic lemmas -/

theorem toList_eq_data (s : String) : s.toList = s.data := rfl

theorem length_eq_data_length (s : String) : s.length = s.data.length := rfl

/-- `_convert_date` is the matching part with carried-date fallback. -/
theorem convertDate_eq_dateParse (s p : String) :
    convertDate s p = (dateParse s).getD p := by
  unfold convertDate dateParse
  split
  · rfl
  · split
    · rfl
    · split
      · rfl
      · split <;> rfl

/-- Zero-padding reaches the requested width. -/
theorem le_length_padZeros (w : Nat) (s : String) :
    w ≤ (padZeros w s).length := by
  unfold padZeros
  split
  · omega
  · simp only [String.length_append, length_eq_data_length, String.mk]
    simp [List.length_replicate]
    omega

/-- Python width-`w` integer formatting reaches width `w`. -/
theorem le_length_pyFmtInt (w : Nat) (n : Int) (hw : 1 ≤ w) :
    w ≤ (pyFmtInt w n).length := by
  unfold pyFmtInt
  split
  · have h := le_length_padZeros (w - 1) (toString n.natAbs)
    have hdash : ("-" : String).length = 1 := rfl
    simp only [String.length_append]
    omega
  · exact le_length_padZeros w _

/-- A successful slash-branch output is at least 10 characters long and
contains a hyphen. -/
theorem slashCase_shape (s d : String) (h : slashCase s = some d) :
    10 ≤ d.data.length ∧ '-' ∈ d.data := by
  unfold slashCase at h
  split at h
  · split at h
    · rename_i y m dd heq
      injection h with h
      subst h
      constructor
      · have h4 := le_length_pyFmtInt 4 (if y < 100 then y + 2000 else y)
          (by omega)
        have h2 := le_length_pyFmtInt 2 m (by omega)
        have h2' := le_length_pyFmtInt 2 dd (by omega)
        simp only [length_eq_data_length] at h4 h2 h2'
        simp only [String.data_append, List.length_append]
        have hdash : (['-'] : List Char).length = 1 := rfl
        omega
      · simp only [String.data_append, List.mem_append]
        have hdash : '-' ∈ ("-" : String).data := by decide
        simp [hdash]
    · exact absurd h (by simp)
  · exact absurd h (by simp)

/-- A `contains` fact on a character list yields membership. -/
theorem mem_of_contains {l : List Char} {c : Char}
    (h : l.contains c = true) : c ∈ l := by
  rw [List.contains_iff_exists_mem_beq] at h
  obtain ⟨x, hx, hbeq⟩ := h
  rwa [show c = x from eq_of_beq hbeq]

/-- The positional 8-digit reformatting has 10 characters with hyphens. -/
theorem dash8_shape (s : String) (h : s.toList.length = 8) :
    (dash8 s).data.length = 10 ∧ '-' ∈ (dash8 s).data := by
  rw [toList_eq_data] at h
  unfold dash8
  simp only [toList_eq_data, String.data_append, List.length_append,
    List.mem_append]
  constructor
  · have hdash : (['-'] : List Char).length = 1 := rfl
    simp only [List.length_take, List.length_drop, h, hdash]
    omega
  · simp

/-- A successful date parse is at least 10 characters long and contains a
hyphen. -/
theorem dateParse_shape (s d : String) (h : dateParse s = some d) :
    10 ≤ d.data.length ∧ '-' ∈ d.data := by
  unfold dateParse at h
  split at h
  · exact absurd h (by simp)
  · split at h
    · rename_i r heq
      injection h with h
      subst h
      exact slashCase_shape _ _ heq
    · split at h
      · rename_i hcond
        injection h with h
        subst h
        obtain ⟨hc, hl⟩ := hcond
        rw [toList_eq_data] at hc hl
        exact ⟨by omega, mem_of_contains hc⟩
      · split at h
        · rename_i hcond
          injection h with h
          subst h
          obtain ⟨hl, _⟩ := hcond
          have := dash8_shape _ hl
          exact ⟨by omega, this.2⟩
        · exact absurd h (by simp)

/-- A successful date parse is nonempty. -/
theorem dateParse_ne_empty (s d : String) (h : dateParse s = some d) :
    d ≠ "" := by
  intro he
  have := (dateParse_shape s d h).1
  rw [he] at this
  simp [show ("" : String).data = [] from rfl] at this

/-- The code's slash branch agrees with the reference slash branch. -/
theorem slashCase_eq_specSlash (s : String) :
    slashCase s = if s.toList.contains '/' then specSlash s else none := by
  unfold slashCase specSlash
  simp only [Int.add_comm 2000]

/-- On a trimmed candidate string, the matching part of `_convert_date`
coincides with the specification's reference date parser. -/
theorem dateParse_eq_specDateParse (s : String) (h : pyStrip s = s) :
    dateParse s = specDateParse s := by
  by_cases hs : s = "" ∨ s = "nan"
  · rcases hs with hs | hs <;> subst hs <;> rfl
  · unfold dateParse specDateParse
    rw [if_neg hs, h, slashCase_eq_specSlash]

/-! ## Carry-forward lemmas -/

/-- One step of the carried-date thread: the resolved date is the parse
result when there is one and the carried date otherwise, and the carried
date for the remaining rows equals the resolved date. -/
theorem resolvedDatesFrom_cons (m : Mapping) (prev : String) (row : Row)
    (rest : List Row) :
    resolvedDatesFrom m prev (row :: rest) =
      ((dateParse (rawDate m row)).getD prev) ::
        resolvedDatesFrom m ((dateParse (rawDate m row)).getD prev) rest := by
  simp only [resolvedDatesFrom, resolveDate, convertDate_eq_dateParse]
  cases hd : dateParse (rawDate m row) with
  | none => simp
  | some d =>
      have hne := dateParse_ne_empty _ _ hd
      simp [hne]

/-- While every date cell fails to parse, every resolved date is empty. -/
theorem resolvedDatesFrom_all_none (m : Mapping) (rows : List Row)
    (h : ∀ row ∈ rows, dateParse (rawDate m row) = none) :
    resolvedDatesFrom m "" rows = List.replicate rows.length "" := by
  induction rows with
  | nil => rfl
  | cons row rest ih =>
      rw [resolvedDatesFrom_cons, h row (by simp)]
      simp only [Option.getD_none]
      rw [ih fun r hr => h r (List.mem_cons_of_mem _ hr)]
      simp [List.replicate_succ]

/-- A prefix of the resolved dates is the resolved dates of the prefix. -/
theorem resolvedDatesFrom_take (m : Mapping) (prev : String)
    (rows : List Row) (k : Nat) :
    (resolvedDatesFrom m prev rows).take k =
      resolvedDatesFrom m prev (rows.take k) := by
  induction rows generalizing prev k with
  | nil => simp [resolvedDatesFrom]
  | cons row rest ih =>
      cases k with
      | zero => rfl
      | succ k =>
          simp only [resolvedDatesFrom, List.take_succ_cons]
          rw [ih]

/-! ## Normalization lemmas -/

/-- The per-row record list has one record per row. -/
theorem recordsAll_length (m : Mapping) (prev : String) (rows : List Row) :
    (recordsAll m prev rows).length = rows.length := by
  induction rows generalizing prev with
  | nil => rfl
  | cons row rest ih => simp [recordsAll, ih]

/-- The emitted records are a sublist of the per-row record list. -/
theorem normalizeFrom_sublist (m : Mapping) (prev : String)
    (rows : List Row) :
    (normalizeFrom m prev rows).Sublist (recordsAll m prev rows) := by
  induction rows generalizing prev with
  | nil => simp [normalizeFrom, recordsAll]
  | cons row rest ih =>
      simp only [normalizeFrom, recordsAll]
      split
      · exact List.Sublist.cons _ (ih _)
      · exact List.Sublist.cons₂ _ (ih _)

/-- The resolved date is the parse result or the carried date. -/
theorem resolveDate_eq (m : Mapping) (row : Row) (prev : String) :
    resolveDate m row prev = (dateParse (rawDate m row)).getD prev := by
  simp [resolveDate, convertDate_eq_dateParse]

/-- Falling back from a nonempty carried date stays nonempty. -/
theorem getD_dateParse_ne_empty (x prev : String) (h : prev ≠ "") :
    (dateParse x).getD prev ≠ "" := by
  cases hd : dateParse x with
  | none => simpa using h
  | some d => simpa using dateParse_ne_empty _ _ hd

/-- A nonempty carried date keeps every resolved date nonempty. -/
theorem resolveDate_ne_empty (m : Mapping) (row : Row) (prev : String)
    (h : prev ≠ "") : resolveDate m row prev ≠ "" := by
  rw [resolveDate_eq]
  exact getD_dateParse_ne_empty _ _ h

/-- With a nonempty carried date no row is suppressed. -/
theorem normalizeFrom_of_ne_empty (m : Mapping) (prev : String)
    (rows : List Row) (h : prev ≠ "") :
    normalizeFrom m prev rows = recordsAll m prev rows := by
  induction rows generalizing prev with
  | nil => rfl
  | cons row rest ih =>
      have hd := resolveDate_ne_empty m row prev h
      simp only [normalizeFrom, recordsAll]
      rw [if_neg fun hc => hd hc.1, if_pos hd]
      rw [ih _ hd]

/-- With a nonempty carried date every resolved date is nonempty. -/
theorem resolvedDatesFrom_ne_empty (m : Mapping) (prev : String)
    (rows : List Row) (h : prev ≠ "") :
    ∀ d ∈ resolvedDatesFrom m prev rows, d ≠ "" := by
  induction rows generalizing prev with
  | nil => simp [resolvedDatesFrom]
  | cons row rest ih =>
      intro d hd
      rw [resolvedDatesFrom_cons] at hd
      rcases List.mem_cons.mp hd with hd | hd
      · subst hd; exact getD_dateParse_ne_empty _ _ h
      · exact ih _ (getD_dateParse_ne_empty _ _ h) d hd

/-- One resolution step preserves the date shape. -/
theorem dateShaped_getD (x prev : String) (h : DateShaped prev) :
    DateShaped ((dateParse x).getD prev) := by
  cases hd : dateParse x with
  | none => simpa
  | some d =>
      have hs := dateParse_shape _ _ hd
      exact Or.inr ⟨hs.1, hs.2⟩

/-- Every emitted work date is empty or at least ten characters with a
hyphen. -/
theorem normalizeFrom_work_date_shaped (m : Mapping) (prev : String)
    (rows : List Row) (h : DateShaped prev) :
    ∀ r ∈ normalizeFrom m prev rows, DateShaped r.work_date := by
  induction rows generalizing prev with
  | nil => simp [normalizeFrom]
  | cons row rest ih =>
      intro r hr
      simp only [normalizeFrom] at hr
      have hstep : DateShaped (resolveDate m row prev) := by
        rw [resolveDate_eq]; exact dateShaped_getD _ _ h
      have hprev' : DateShaped
          (if resolveDate m row prev ≠ "" then resolveDate m row prev
           else prev) := by
        split
        · exact hstep
        · exact h
      split at hr
      · exact ih _ hprev' r hr
      · rcases List.mem_cons.mp hr with hr | hr
        · subst hr; exact hstep
        · exact ih _ hprev' r hr

/-- Every emitted record is the record of some input row. -/
theorem normalizeFrom_mem (m : Mapping) (prev : String) (rows : List Row)
    (r : Record) (hr : r ∈ normalizeFrom m prev rows) :
    ∃ row ∈ rows, ∃ d, r = rowRecord m row d := by
  induction rows generalizing prev with
  | nil => simp [normalizeFrom] at hr
  | cons row rest ih =>
      simp only [normalizeFrom] at hr
      split at hr
      · obtain ⟨row', hrow', d, hd⟩ := ih _ hr
        exact ⟨row', List.mem_cons_of_mem _ hrow', d, hd⟩
      · rcases List.mem_cons.mp hr with hr | hr
        · exact ⟨row, List.mem_cons_self _ _, _, hr⟩
        · obtain ⟨row', hrow', d, hd⟩ := ih _ hr
          exact ⟨row', List.mem_cons_of_mem _ hrow', d, hd⟩

/-! ## Canonical dates are fixed points -/

/-- A decimal digit is not whitespace. -/
theorem not_whitespace_of_isDigit (c : Char) (h : c.isDigit = true) :
    c.isWhitespace = false := by
  have h1 : c ≠ ' ' := by rintro rfl; exact absurd h (by decide)
  have h2 : c ≠ '\t' := by rintro rfl; exact absurd h (by decide)
  have h3 : c ≠ '\r' := by rintro rfl; exact absurd h (by decide)
  have h4 : c ≠ '\n' := by rintro rfl; exact absurd h (by decide)
  simp [Char.isWhitespace, h1, h2, h3, h4]

/-- A decimal digit is not the slash. -/
theorem ne_slash_of_isDigit (c : Char) (h : c.isDigit = true) : c ≠ '/' := by
  rintro rfl; exact absurd h (by decide)

/-- Dropping leading whitespace from a whitespace-free list changes
nothing. -/
theorem dropWhile_ws_eq_self (l : List Char)
    (h : ∀ c ∈ l, c.isWhitespace = false) :
    l.dropWhile Char.isWhitespace = l := by
  cases l with
  | nil => rfl
  | cons a l => simp [List.dropWhile_cons, h a (List.mem_cons_self _ _)]

/-- Stripping a whitespace-free list changes nothing. -/
theorem pyStripList_eq_self (l : List Char)
    (h : ∀ c ∈ l, c.isWhitespace = false) : pyStripList l = l := by
  unfold pyStripList
  rw [dropWhile_ws_eq_self _ h,
    dropWhile_ws_eq_self _ fun c hc => h c (List.mem_reverse.mp hc),
    List.reverse_reverse]

/-- Stripping a whitespace-free string changes nothing. -/
theorem pyStrip_eq_self (s : String)
    (h : ∀ c ∈ s.toList, c.isWhitespace = false) : pyStrip s = s := by
  unfold pyStrip
  rw [pyStripList_eq_self _ h]
  rfl

/-- A canonical date string consists of digits and hyphens only, so it is
already trimmed. -/
theorem canonical_pyStrip (s : String) (h : isCanonicalDate s = true) :
    pyStrip s = s := by
  unfold isCanonicalDate at h
  split at h
  · rename_i y1 y2 y3 y4 h1 m1 m2 h2 d1 d2 heq
    simp only [Bool.and_eq_true, beq_iff_eq] at h
    obtain ⟨⟨⟨⟨⟨⟨⟨⟨⟨hy1, hy2⟩, hy3⟩, hy4⟩, hh1⟩, hm1⟩, hm2⟩, hh2⟩, hd1⟩,
      hd2⟩ := h
    subst hh1; subst hh2
    apply pyStrip_eq_self
    rw [heq]
    intro c hc
    simp only [List.mem_cons, List.not_mem_nil, or_false] at hc
    rcases hc with rfl|rfl|rfl|rfl|rfl|rfl|rfl|rfl|rfl|rfl
    · exact not_whitespace_of_isDigit _ hy1
    · exact not_whitespace_of_isDigit _ hy2
    · exact not_whitespace_of_isDigit _ hy3
    · exact not_whitespace_of_isDigit _ hy4
    · decide
    · exact not_whitespace_of_isDigit _ hm1
    · exact not_whitespace_of_isDigit _ hm2
    · decide
    · exact not_whitespace_of_isDigit _ hd1
    · exact not_whitespace_of_isDigit _ hd2
  · exact absurd h (by simp)

/-- A canonical date string parses to itself (a stable fixed point of the
hyphen branch). -/
theorem dateParse_of_canonical (s : String) (h : isCanonicalDate s = true) :
    dateParse s = some s := by
  have hstrip := canonical_pyStrip s h
  unfold isCanonicalDate at h
  split at h
  · rename_i y1 y2 y3 y4 h1 m1 m2 h2 d1 d2 heq
    simp only [Bool.and_eq_true, beq_iff_eq] at h
    obtain ⟨⟨⟨⟨⟨⟨⟨⟨⟨hy1, hy2⟩, hy3⟩, hy4⟩, hh1⟩, hm1⟩, hm2⟩, hh2⟩, hd1⟩,
      hd2⟩ := h
    subst hh1; subst hh2
    have hlen : s.toList.length = 10 := by rw [heq]; rfl
    have hne : s ≠ "" := by
      rintro rfl
      have := congrArg List.length heq
      simp at this
    have hnan : s ≠ "nan" := by
      rintro rfl
      have := congrArg List.length heq
      simp at this
    have hnoslash : s.toList.contains '/' = false := by
      rw [Bool.eq_false_iff]
      intro hc
      rw [List.contains_iff_exists_mem_beq] at hc
      obtain ⟨x, hx, hbeq⟩ := hc
      have hxeq : '/' = x := eq_of_beq hbeq
      subst hxeq
      rw [heq] at hx
      simp only [List.mem_cons, List.not_mem_nil, or_false] at hx
      rcases hx with hx|hx|hx|hx|hx|hx|hx|hx|hx|hx
      · exact ne_slash_of_isDigit _ hy1 hx.symm
      · exact ne_slash_of_isDigit _ hy2 hx.symm
      · exact ne_slash_of_isDigit _ hy3 hx.symm
      · exact ne_slash_of_isDigit _ hy4 hx.symm
      · exact absurd hx (by decide)
      · exact ne_slash_of_isDigit _ hm1 hx.symm
      · exact ne_slash_of_isDigit _ hm2 hx.symm
      · exact absurd hx (by decide)
      · exact ne_slash_of_isDigit _ hd1 hx.symm
      · exact ne_slash_of_isDigit _ hd2 hx.symm
    have hdash : s.toList.contains '-' = true := by
      rw [List.contains_iff_exists_mem_beq]
      refine ⟨'-', ?_, by simp⟩
      rw [heq]
      simp
    have hslash : slashCase s = none := by
      unfold slashCase
      rw [hnoslash]
      simp
    unfold dateParse
    rw [if_neg (by push_neg; exact ⟨hne, hnan⟩), hstrip, hslash]
    exact if_pos ⟨hdash, hlen⟩
  · exact absurd h (by simp)

/-- A mapped, already-clean cell is kept as it is. -/
theorem getVal_of_filled (row : Row) (col : String) (hcol : col ≠ noCol)
    (h : Filled (rowGet row col)) : getVal row col = some (rowGet row col) := by
  unfold getVal
  rw [if_neg hcol, h.1, if_neg]
  rintro (hc | hc)
  · exact h.2.2 hc
  · exact h.2.1 hc

/-- Normalizing already-canonical, fully filled rows reproduces the rows. -/
theorem normalizeFrom_canonical (m : Mapping) (prev : String)
    (rows : List Row)
    (hdm : m.col_date ≠ noCol) (htm : m.col_type ≠ noCol)
    (hfm : m.col_field ≠ noCol) (hrm : m.col_row ≠ noCol)
    (hcm : m.col_content ≠ noCol) (hnm : m.col_note ≠ noCol)
    (hrows : ∀ row ∈ rows,
      isCanonicalDate (rowGet row m.col_date) = true ∧
      Filled (rowGet row m.col_type) ∧ Filled (rowGet row m.col_field) ∧
      Filled (rowGet row m.col_row) ∧ Filled (rowGet row m.col_content) ∧
      Filled (rowGet row m.col_note)) :
    normalizeFrom m prev rows = rows.map fun row =>
      { work_date := rowGet row m.col_date
        work_type := rowGet row m.col_type
        field_id := some (rowGet row m.col_field)
        row_id := some (rowGet row m.col_row)
        content := some (rowGet row m.col_content)
        note := some (rowGet row m.col_note) } := by
  induction rows generalizing prev with
  | nil => rfl
  | cons row rest ih =>
      obtain ⟨hcan, hty, hfi, hro, hco, hno⟩ :=
        hrows row (List.mem_cons_self _ _)
      have hparse := dateParse_of_canonical _ hcan
      have hraw : rawDate m row = rowGet row m.col_date := by
        unfold rawDate
        rw [if_pos hdm, canonical_pyStrip _ hcan]
      have hres : resolveDate m row prev = rowGet row m.col_date := by
        rw [resolveDate_eq, hraw, hparse]
        rfl
      have hne : rowGet row m.col_date ≠ "" := by
        rw [← hraw]
        exact dateParse_ne_empty _ _ (hraw ▸ hparse)
      simp only [normalizeFrom, List.map_cons]
      rw [hres, if_neg fun hc => hne hc.1, if_pos hne,
        ih _ fun r hr => hrows r (List.mem_cons_of_mem _ hr)]
      congr 1
      have hwt : ¬(rowGet row m.col_type = "" ∨
          rowGet row m.col_type = "nan") := by
        rintro (hc | hc)
        · exact hty.2.1 hc
        · exact hty.2.2 hc
      simp only [rowRecord]
      rw [if_pos htm, hty.1, if_neg hwt, getVal_of_filled _ _ hfm hfi,
        getVal_of_filled _ _ hrm hro, getVal_of_filled _ _ hcm hco,
        getVal_of_filled _ _ hnm hno]

/-- The emitted work type, written out. -/
theorem rowRecord_work_type (m : Mapping) (row : Row) (d : String) :
    (rowRecord m row d).work_type =
      (if (if m.col_type ≠ noCol then pyStrip (rowGet row m.col_type)
           else "") = "" ∨
          (if m.col_type ≠ noCol then pyStrip (rowGet row m.col_type)
           else "") = "nan"
       then "その他"
       else if m.col_type ≠ noCol then pyStrip (rowGet row m.col_type)
       else "") := rfl

/-- No emitted record has both an empty work date and an absent content. -/
theorem normalizeFrom_not_suppressed (m : Mapping) (prev : String)
    (rows : List Row) :
    ∀ r ∈ normalizeFrom m prev rows, r.work_date ≠ "" ∨ r.content ≠ none := by
  induction rows generalizing prev with
  | nil => simp [normalizeFrom]
  | cons row rest ih =>
      intro r hr
      simp only [normalizeFrom] at hr
      split at hr
      · exact ih _ r hr
      · rename_i hcond
        rcases List.mem_cons.mp hr with hr | hr
        · subst hr
          by_cases hd : resolveDate m row prev = ""
          · right
            intro hc
            exact hcond ⟨hd, hc⟩
          · left
            exact hd
        · exact ih _ r hr

/-- The per-row records carry exactly the per-row resolved dates. -/
theorem recordsAll_work_dates (m : Mapping) (prev : String)
    (rows : List Row) :
    (recordsAll m prev rows).map (fun r => r.work_date) =
      resolvedDatesFrom m prev rows := by
  induction rows generalizing prev with
  | nil => rfl
  | cons row rest ih =>
      simp only [recordsAll, resolvedDatesFrom, List.map_cons]
      rw [ih]
      rfl

/-! ## Encoding loop lemmas -/

/-- The encoding loop takes the first success in candidate order. -/
theorem tryEncodings_eq_findSome (p : Enc → List Nat → Option RawTable)
    (raw : List Nat) (l : List Enc) :
    tryEncodings p raw l = l.findSome? fun e => p e raw := by
  induction l with
  | nil => rfl
  | cons e rest ih =>
      simp only [tryEncodings, List.findSome?_cons]
      cases p e raw <;> simp [ih]

/-- The encoding loop fails exactly when every candidate fails. -/
theorem tryEncodings_eq_none (p : Enc → List Nat → Option RawTable)
    (raw : List Nat) (l : List Enc) :
    tryEncodings p raw l = none ↔ ∀ e ∈ l, p e raw = none := by
  induction l with
  | nil => simp [tryEncodings]
  | cons e rest ih =>
      simp only [tryEncodings]
      cases hp : p e raw with
      | none => simp [hp, ih]
      | some t => simp [hp]

/-! ## Claims -/

/-- **C1** (carry-forward): normalization threads one carried date across
rows in table order, initialized to empty; a row whose mapped date cell
parses takes the parsed date as its resolved work date and as the new
carried value; a row whose cell is blank, unparseable, or the `"nan"`
sentinel resolves to the carried value as it stood before the row, so every
row before the first parsing row resolves to the empty string; and on the
date column `["2024-01-05", "", "", "2024/02/10", ""]` the resolved dates
are `["2024-01-05", "2024-01-05", "2024-01-05", "2024-02-10",
"2024-02-10"]`. -/
theorem C1_carry_forward :
    (∀ m rows, resolvedDates m rows = resolvedDatesFrom m "" rows) ∧
    (∀ m rows, (recordsAll m "" rows).map (fun r => r.work_date) =
        resolvedDates m rows) ∧
    (∀ m prev row rest,
        resolvedDatesFrom m prev (row :: rest) =
          ((dateParse (rawDate m row)).getD prev) ::
            resolvedDatesFrom m ((dateParse (rawDate m row)).getD prev)
              rest) ∧
    (∀ m rows k,
        (∀ row ∈ rows.take k, dateParse (rawDate m row) = none) →
        (resolvedDates m rows).take k =
          List.replicate (rows.take k).length "") ∧
    resolvedDates exDateM exDateRows =
      ["2024-01-05", "2024-01-05", "2024-01-05", "2024-02-10",
       "2024-02-10"] := by
  refine ⟨fun m rows => rfl, fun m rows => recordsAll_work_dates m "" rows,
    resolvedDatesFrom_cons, ?_, by decide⟩
  intro m rows k h
  rw [resolvedDates, resolvedDatesFrom_take]
  exact resolvedDatesFrom_all_none m _ h

/-- Witness for C1: a two-row table whose date cells both fail to parse
resolves every date in that prefix to the empty string. -/
theorem C1_witness :
    (resolvedDates exContentM [exRowBlank, exRowContent]).take 2 =
      List.replicate ([exRowBlank, exRowContent].take 2).length "" :=
  C1_carry_forward.2.2.2.1 exContentM [exRowBlank, exRowContent] 2
    (by decide)

/-- **C2** (date-parsing sub-algorithm): on every trimmed candidate string
`_convert_date` equals the specification's reference parser — slash-split
three-integer dates with two-digit-year expansion first, then verbatim
10-character hyphenated strings, then positional 8-digit strings, and
otherwise the carried-date fallback. -/
theorem C2_date_parser_reference (s p : String) (h : pyStrip s = s) :
    convertDate s p = (specDateParse s).getD p := by
  rw [convertDate_eq_dateParse, dateParse_eq_specDateParse s h]

/-- Witness for C2: the two-digit-year example `"24/3/1"` agrees with the
reference parser and yields `"2024-03-01"`. -/
theorem C2_witness :
    pyStrip "24/3/1" = "24/3/1" ∧
    convertDate "24/3/1" "" = (specDateParse "24/3/1").getD "" ∧
    convertDate "24/3/1" "" = "2024-03-01" :=
  ⟨by decide, C2_date_parser_reference "24/3/1" "" (by decide), by decide⟩

/-- **C3** (emptiness suppression): every emitted record has a non-empty
work date or a present content; a row with empty resolved date and absent
content contributes nothing to the output; a row with empty resolved date
but present content is retained with empty work date. -/
theorem C3_emptiness_suppression :
    (∀ m rows r, r ∈ normalize m rows →
        r.work_date ≠ "" ∨ r.content ≠ none) ∧
    (∀ m prev row rest, resolveDate m row prev = "" →
        getVal row m.col_content = none →
        normalizeFrom m prev (row :: rest) = normalizeFrom m prev rest) ∧
    (∀ m prev row rest, resolveDate m row prev = "" →
        getVal row m.col_content ≠ none →
        normalizeFrom m prev (row :: rest) =
          rowRecord m row "" :: normalizeFrom m prev rest) := by
  refine ⟨fun m rows => normalizeFrom_not_suppressed m "" rows, ?_, ?_⟩
  · intro m prev row rest h1 h2
    simp only [normalizeFrom]
    rw [h1]
    simp [h2]
  · intro m prev row rest h1 h2
    simp only [normalizeFrom]
    rw [h1]
    simp [h2]

/-- Witness for C3: under a date+content mapping, an unparseable-date row
with blank content is dropped and one with content `"hello"` is kept with
empty work date. -/
theorem C3_witness :
    normalizeFrom exContentM "" [exRowBlank] = normalizeFrom exContentM "" [] ∧
    normalizeFrom exContentM "" [exRowContent] =
      rowRecord exContentM exRowContent "" :: normalizeFrom exContentM "" [] :=
  ⟨C3_emptiness_suppression.2.1 exContentM "" exRowBlank [] (by decide)
      (by decide),
   C3_emptiness_suppression.2.2 exContentM "" exRowContent [] (by decide)
      (by decide)⟩

/-- **C4 counterexample**: the claim "every emitted work date is empty or
canonical `YYYY-MM-DD`" fails — the 10-character date cell `"abcd-efghi"`
contains a hyphen, is accepted verbatim by the hyphen branch, and is
emitted although it is not canonical. -/
theorem C4_counterexample :
    normalize exDateM [exRow4] =
      [{ work_date := "abcd-efghi", work_type := "その他", field_id := none,
         row_id := none, content := none, note := none }] ∧
    isCanonicalDate "abcd-efghi" = false := by decide

/-- **C4** (amended): every emitted record's work date is either the empty
string or a string of at least ten characters containing a hyphen; the
hyphen branch accepts any such 10-character string verbatim, so the
digits-and-hyphens-only canonical form is not guaranteed. -/
theorem C4_work_date_shape (m : Mapping) (rows : List Row) (r : Record)
    (hr : r ∈ normalize m rows) :
    r.work_date = "" ∨
      (10 ≤ r.work_date.length ∧ '-' ∈ r.work_date.toList) :=
  normalizeFrom_work_date_shaped m "" rows (Or.inl rfl) r hr

/-- Witness for C4 at a record emitted for a canonical date cell. -/
theorem C4_witness :
    exRecCanon ∈ normalize exDateM [[("date", "2024-01-05")]] ∧
    (exRecCanon.work_date = "" ∨
      (10 ≤ exRecCanon.work_date.length ∧
        '-' ∈ exRecCanon.work_date.toList)) :=
  ⟨by decide,
   C4_work_date_shape exDateM [[("date", "2024-01-05")]] exRecCanon
     (by decide)⟩

/-- **C5 counterexample**: the claim "for all byte buffers decodable under
at least one candidate encoding the resolver returns a table" fails — the
empty buffer decodes under the `latin1` fallback (indeed under every
candidate) but the tabular parse fails on it, so the resolver reports
failure. -/
theorem C5_counterexample :
    Enc.latin1 ∈ encCandidates ∧ decodableUnder Enc.latin1 [] = true ∧
    resolveTable pdReadCsv [] = none := by decide

/-- **C5** (amended): the resolver tries the fixed candidate list in order
and accepts the first candidate whose full tabular parse succeeds; it fails
exactly when every candidate's parse fails — decodability alone does not
guarantee success, because the parse may fail on decodable input. -/
theorem C5_first_parse_success (p : Enc → List Nat → Option RawTable)
    (raw : List Nat) :
    resolveTable p raw = (encCandidates.findSome? fun e => p e raw) ∧
    (resolveTable p raw = none ↔ ∀ e ∈ encCandidates, p e raw = none) :=
  ⟨tryEncodings_eq_findSome p raw encCandidates,
   tryEncodings_eq_none p raw encCandidates⟩

/-- **C6** (work-type defaulting): every emitted record's work type is
non-empty; it equals the trimmed mapped work-type cell when that cell trims
to a non-empty string other than the `"nan"` sentinel, and otherwise
(unmapped, blank, or sentinel) it is the default `"その他"`. -/
theorem C6_work_type_defaulting :
    (∀ m rows r, r ∈ normalize m rows → r.work_type ≠ "") ∧
    (∀ m row d, m.col_type ≠ noCol →
        pyStrip (rowGet row m.col_type) ≠ "" →
        pyStrip (rowGet row m.col_type) ≠ "nan" →
        (rowRecord m row d).work_type = pyStrip (rowGet row m.col_type)) ∧
    (∀ m row d, m.col_type = noCol ∨ pyStrip (rowGet row m.col_type) = "" ∨
        pyStrip (rowGet row m.col_type) = "nan" →
        (rowRecord m row d).work_type = "その他") := by
  refine ⟨?_, ?_, ?_⟩
  · intro m rows r hr
    obtain ⟨row, _, d, rfl⟩ := normalizeFrom_mem m "" rows r hr
    rw [rowRecord_work_type]
    split
    · split
      · decide
      · rename_i h
        push_neg at h
        exact h.1
    · decide
  · intro m row d hm h1 h2
    rw [rowRecord_work_type]
    simp [hm, h1, h2]
  · intro m row d h
    rw [rowRecord_work_type]
    rcases h with hm | h | h
    · simp [hm]
    · by_cases hm : m.col_type = noCol
      · simp [hm]
      · simp [hm, h]
    · by_cases hm : m.col_type = noCol
      · simp [hm]
      · simp [hm, h]

/-- Witness for C6: a whitespace-padded work-type cell is kept trimmed, a
blank one defaults to `"その他"`. -/
theorem C6_witness :
    (rowRecord exTypeM exRowType "").work_type =
      pyStrip (rowGet exRowType exTypeM.col_type) ∧
    (rowRecord exTypeM exRowTypeBlank "").work_type = "その他" :=
  ⟨C6_work_type_defaulting.2.1 exTypeM exRowType "" (by decide) (by decide)
      (by decide),
   C6_work_type_defaulting.2.2 exTypeM exRowTypeBlank ""
      (Or.inr (Or.inl (by decide)))⟩

/-- **C7** (totality of normalization): normalization is a total function
(the embedding returns a list for every table and mapping by
construction); an auxiliary field is absent exactly when it is unmapped or
its cell trims to the empty string or the `"nan"` sentinel; a present
auxiliary field carries exactly the trimmed cell text; and every emitted
record draws its four auxiliary fields from some input row this way. -/
theorem C7_totality_aux_fields :
    (∀ row col, getVal row col = none ↔
        col = noCol ∨ pyStrip (rowGet row col) = "" ∨
          pyStrip (rowGet row col) = "nan") ∧
    (∀ row col v, getVal row col = some v →
        v = pyStrip (rowGet row col) ∧ v ≠ "" ∧ v ≠ "nan") ∧
    (∀ m rows r, r ∈ normalize m rows →
        ∃ row ∈ rows, r.field_id = getVal row m.col_field ∧
          r.row_id = getVal row m.col_row ∧
          r.content = getVal row m.col_content ∧
          r.note = getVal row m.col_note) := by
  refine ⟨?_, ?_, ?_⟩
  · intro row col
    unfold getVal
    by_cases hcol : col = noCol
    · simp [hcol]
    · rw [if_neg hcol]
      by_cases hval : pyStrip (rowGet row col) = "nan" ∨
          pyStrip (rowGet row col) = ""
      · rw [if_pos hval]
        simp [hcol]
        tauto
      · rw [if_neg hval]
        push_neg at hval
        simp [hcol, hval.1, hval.2]
  · intro row col v h
    unfold getVal at h
    split at h
    · exact absurd h (by simp)
    · split at h
      · exact absurd h (by simp)
      · rename_i hval
        push_neg at hval
        injection h with h
        subst h
        exact ⟨rfl, hval.2, hval.1⟩
  · intro m rows r hr
    obtain ⟨row, hrow, d, rfl⟩ := normalizeFrom_mem m "" rows r hr
    exact ⟨row, hrow, rfl, rfl, rfl, rfl⟩

/-- Witness for C7: the mapped content cell `"hello"` is kept as the
trimmed text. -/
theorem C7_witness :
    ("hello" : String) = pyStrip (rowGet exRowContent "c") ∧
    ("hello" : String) ≠ "" ∧ ("hello" : String) ≠ "nan" :=
  C7_totality_aux_fields.2.1 exRowContent "c" "hello" (by decide)

/-- **C8** (idempotence on canonical input): a canonical hyphenated date
string is a stable fixed point of date parsing, and normalizing a table
whose mapped date cells are canonical and whose mapped fields are all
filled with trimmed non-empty non-sentinel text under a fully mapped
(identity-like) mapping reproduces every input row as a record — the
suppression rule drops nothing. -/
theorem C8_idempotence :
    (∀ s, isCanonicalDate s = true → dateParse s = some s) ∧
    (∀ m rows, m.col_date ≠ noCol → m.col_type ≠ noCol →
      m.col_field ≠ noCol → m.col_row ≠ noCol → m.col_content ≠ noCol →
      m.col_note ≠ noCol →
      (∀ row ∈ rows, isCanonicalDate (rowGet row m.col_date) = true ∧
        Filled (rowGet row m.col_type) ∧ Filled (rowGet row m.col_field) ∧
        Filled (rowGet row m.col_row) ∧ Filled (rowGet row m.col_content) ∧
        Filled (rowGet row m.col_note)) →
      normalize m rows = rows.map fun row =>
        { work_date := rowGet row m.col_date
          work_type := rowGet row m.col_type
          field_id := some (rowGet row m.col_field)
          row_id := some (rowGet row m.col_row)
          content := some (rowGet row m.col_content)
          note := some (rowGet row m.col_note) }) :=
  ⟨dateParse_of_canonical,
   fun m rows h1 h2 h3 h4 h5 h6 h7 =>
     normalizeFrom_canonical m "" rows h1 h2 h3 h4 h5 h6 h7⟩

/-- Witness for C8: a canonical fully filled row passes through unchanged,
and its date is a parse fixed point. -/
theorem C8_witness :
    normalize exFullM [exCanonRow] = [exCanonRec] ∧
    dateParse "2024-01-05" = some "2024-01-05" := by
  constructor
  · rw [C8_idempotence.2 exFullM [exCanonRow] (by decide) (by decide)
      (by decide) (by decide) (by decide) (by decide) (by decide)]
    decide
  · exact C8_idempotence.1 "2024-01-05" (by decide)

/-- **C9** (order preservation): the output is an order-preserving
selection of the per-row records — a sublist of the one-record-per-row
list, which has exactly one entry per input row — so each input row
contributes at most one record, relative order is kept, and the output is
never longer than the input. -/
theorem C9_order_preservation (m : Mapping) (rows : List Row) :
    (normalize m rows).Sublist (recordsAll m "" rows) ∧
    (recordsAll m "" rows).length = rows.length ∧
    (normalize m rows).length ≤ rows.length := by
  refine ⟨normalizeFrom_sublist m "" rows, recordsAll_length m "" rows, ?_⟩
  calc (normalize m rows).length
      ≤ (recordsAll m "" rows).length :=
        (normalizeFrom_sublist m "" rows).length_le
    _ = rows.length := recordsAll_length m "" rows

/-- **C10** (carried-date persistence): the carried date is never reset
from non-empty to empty — a non-empty carried date keeps every later
resolved date non-empty and suppresses no later row — and as soon as one
row's date cell parses, that row and every row after it is emitted, so
suppression can only strike rows preceding the first parsing row. -/
theorem C10_carried_persistence :
    (∀ m prev row, prev ≠ "" → resolveDate m row prev ≠ "") ∧
    (∀ m prev rows, prev ≠ "" →
        ∀ d ∈ resolvedDatesFrom m prev rows, d ≠ "") ∧
    (∀ m prev rows, prev ≠ "" →
        normalizeFrom m prev rows = recordsAll m prev rows) ∧
    (∀ m prev row rest d, dateParse (rawDate m row) = some d →
        normalizeFrom m prev (row :: rest) =
          recordsAll m prev (row :: rest)) := by
  refine ⟨fun m prev row h => resolveDate_ne_empty m row prev h,
    fun m prev rows h => resolvedDatesFrom_ne_empty m prev rows h,
    fun m prev rows h => normalizeFrom_of_ne_empty m prev rows h, ?_⟩
  intro m prev row rest d hd
  have hres : resolveDate m row prev ≠ "" := by
    rw [resolveDate_eq, hd]
    simpa using dateParse_ne_empty _ _ hd
  simp only [normalizeFrom, recordsAll]
  rw [if_neg fun hc => hres hc.1, if_pos hres,
    normalizeFrom_of_ne_empty _ _ _ hres]

/-- Witness for C10: after a parsing first row, a blank-date second row is
emitted rather than suppressed. -/
theorem C10_witness :
    normalizeFrom exDateM "" [[("date", "2024-01-05")], [("date", "")]] =
      recordsAll exDateM "" [[("date", "2024-01-05")], [("date", "")]] :=
  C10_carried_persistence.2.2.2 exDateM "" [("date", "2024-01-05")]
    [[("date", "")]] "2024-01-05" (by decide)

end FarmLog
